import Mathlib

/-!
Verification development for the `moq` mock-generation package
(`pkg/moq/moq.go`).  The Go code is shallowly embedded: Go strings are
Lean `String`s (manipulated through their underlying `List Char`),
Go maps used as string sets become insertion-ordered duplicate-free
lists, fallible operations return `Except`, and a Go runtime panic is
embedded as a distinguished error value that aborts the computation.
External collaborators (the file system, `filepath.Abs`, the type
loader, the text template and the `goimports` formatter) are either
parameters of the embedded functions or are modelled from the spec,
as flagged by their doc comments.
-/

set_option maxHeartbeats 1000000

namespace Moq

/-! ## Go standard-library string and path helpers -/

/-- Embedding of Go `strings.HasSuffix` via list suffix testing. -/
def goHasSuffix (s suffixStr : String) : Bool :=
  decide (suffixStr.data <:+ s.data)

/-- Embedding of Go `strings.Contains` via list infix testing. -/
def goContains (s sub : String) : Bool :=
  decide (sub.data <:+: s.data)

/-- Embedding of Go `strings.Split(s, "/")` restricted to the single
separator character `'/'`, used by the `path.Clean` model. -/
def splitSlash : List Char → List (List Char)
  | [] => [[]]
  | c :: cs =>
    match splitSlash cs with
    | [] => [[c]]
    | h :: t => if c = '/' then [] :: h :: t else (c :: h) :: t

/-- Joining a list of path elements with a separator character, the
inverse of `splitSlash`; mirrors Go `strings.Join`. -/
def joinSep (sep : Char) : List (List Char) → List Char
  | [] => []
  | [s] => s
  | s :: rest => s ++ sep :: joinSep sep rest

/-- One step of the element-wise stack machine of Go `path.Clean`:
empty and `"."` elements are dropped, `".."` pops the previous element
unless there is none (kept when not rooted, dropped at the root when
rooted) or the previous element is itself `".."`.  The stack is kept in
reverse order. -/
def cleanStep (rooted : Bool) (stack : List (List Char)) (seg : List Char) : List (List Char) :=
  if seg = [] ∨ seg = ['.'] then stack
  else if seg = ['.', '.'] then
    match stack with
    | top :: rest => if top = ['.', '.'] then seg :: top :: rest else rest
    | [] => if rooted then [] else [seg]
  else seg :: stack

/-- Embedding of Go `path.Clean` (identical to `filepath.Clean` on a
slash-separated system), expressed at the level of path elements. -/
def pathClean (p : List Char) : List Char :=
  if p = [] then ['.']
  else
    let rooted : Bool := p.head? = some '/'
    let outRev := (splitSlash p).foldl (cleanStep rooted) []
    let out := joinSep '/' outRev.reverse
    if rooted then
      if out = [] then ['/'] else '/' :: out
    else
      if out = [] then ['.'] else out

/-- Embedding of Go `path.Join` / `filepath.Join`: all elements from the
first non-empty one are joined with `'/'` and the result is cleaned; if
every element is empty the result is empty. -/
def pathJoin (elems : List (List Char)) : List Char :=
  match elems.dropWhile (fun e => e.isEmpty) with
  | [] => []
  | rest => pathClean (joinSep '/' rest)

/-- Embedding of Go `filepath.Dir`: everything up to and including the
final separator, cleaned; `Clean("")` yields `"."` when there is no
separator. -/
def filepathDir (p : List Char) : List Char :=
  pathClean ((p.reverse.dropWhile (fun c => ¬ c = '/')).reverse)

/-- Embedding of Go `filepath.Join` on two elements, as `String`s. -/
def filepathJoin (a b : String) : String :=
  ⟨pathJoin [a.data, b.data]⟩

/-- The vendoring marker `"/vendor/"` that `stripVendorPath` splits on. -/
def vendorMarker : List Char :=
  ['/', 'v', 'e', 'n', 'd', 'o', 'r', '/']

/-- Fuel-indexed embedding of Go `strings.Split(p, "/vendor/")`: scan
left to right, cutting at each non-overlapping occurrence of the
separator.  The fuel (one unit per consumed character) only makes the
recursion structural; `splitVendor` supplies enough fuel for it never to
run out. -/
def splitVendorF : Nat → List Char → List Char → List (List Char)
  | _, acc, [] => [acc.reverse]
  | 0, acc, rest => [acc.reverse ++ rest]
  | fuel + 1, acc, c :: cs =>
    if vendorMarker <+: (c :: cs) then
      acc.reverse :: splitVendorF fuel [] (cs.drop 7)
    else
      splitVendorF fuel (c :: acc) cs

/-- Embedding of Go `strings.Split(p, "/vendor/")`. -/
def splitVendor (s : List Char) : List (List Char) :=
  splitVendorF s.length [] s

/-- Embedding of `stripVendorPath` from `pkg/moq/moq.go`: split on the
vendor marker; a path without the marker is returned unchanged,
otherwise the parts after the first one are `path.Join`ed and leading
slashes are trimmed (Go `strings.TrimLeft(_, "/")`). -/
def stripVendorPath (p : String) : String :=
  let parts := splitVendor p.data
  if parts.length = 1 then p
  else ⟨(pathJoin (parts.drop 1)).dropWhile (fun c => c = '/')⟩

/-! ## Data model

The fragment of the `go/types` universe that interface method
signatures of this package can mention: named types carrying their
defining package, basic (universe) types, slices and pointers.
`types.TypeString` with a qualifier callback is embedded by
`typeString` below. -/

/-- A resolved Go package as seen by the qualifier callback: its short
name (`pkg.Name()`) and its import path (`pkg.Path()`). -/
structure GoPackage where
  name : String
  path : String
deriving DecidableEq

/-- The fragment of Go types reachable from the embedded signatures. -/
inductive GoType where
  | basic (typeName : String)
  | named (pkgName pkgPath typeName : String)
  | slice (elem : GoType)
  | ptr (elem : GoType)
deriving DecidableEq

/-- A parameter or result variable of a signature (`*types.Var`):
its declared name (`""` when the source omitted it) and its type. -/
structure GoVar where
  name : String
  type : GoType
deriving DecidableEq

/-- A method signature (`*types.Signature`): parameter tuple, result
tuple and the variadic flag of the whole signature. -/
structure GoSignature where
  params : List GoVar
  results : List GoVar
  variadic : Bool
deriving DecidableEq

/-- A method of an interface's fully flattened method set. -/
structure GoMethod where
  name : String
  sig : GoSignature
deriving DecidableEq

/-- The mutable part of the `Mocker` struct of `pkg/moq/moq.go`: the
package name, the computed package path and the `imports` map.  The
map with `bool` values is embedded as its insertion-ordered list of
keys; `insertKey` below is `m.imports[path] = true`. -/
structure MockerState where
  pkgName : String
  pkgPath : String
  imports : List String
deriving DecidableEq

/-- Map-key insertion for the embedded `imports` map. -/
def insertKey (p : String) (l : List String) : List String :=
  if p ∈ l then l else l ++ [p]

/-- The import identity `filepath.Join(filepath.Dir(path), pkg.Name())`
computed at the top of `Mocker.packageQualifier`. -/
def importIdentity (pkg : GoPackage) : String :=
  filepathJoin ⟨filepathDir pkg.path.data⟩ pkg.name

/-- Embedding of `Mocker.packageQualifier` from `pkg/moq/moq.go`: if
the computed import identity equals the mocker's own package path the
type is referenced unqualified and nothing is recorded; otherwise the
package's path (a bare `"."` is first replaced by the mocker's package
path) is recorded in the imports map and the package's short name is
returned as qualifier. -/
def packageQualifier (m : MockerState) (pkg : GoPackage) : MockerState × String :=
  if importIdentity pkg = m.pkgPath then (m, "")
  else
    let path := if pkg.path = "." then m.pkgPath else pkg.path
    ({ m with imports := insertKey path m.imports }, pkg.name)

/-- Embedding of `types.TypeString(typ, m.packageQualifier)` on the
modelled type fragment, threading the mocker state through the
qualifier callback. -/
def typeString (m : MockerState) : GoType → MockerState × String
  | .basic typeName => (m, typeName)
  | .named pkgName pkgPath typeName =>
    let r := packageQualifier m ⟨pkgName, pkgPath⟩
    (r.1, if r.2 = "" then typeName else r.2 ++ "." ++ typeName)
  | .slice t =>
    let r := typeString m t
    (r.1, "[]" ++ r.2)
  | .ptr t =>
    let r := typeString m t
    (r.1, "*" ++ r.2)

/-! ## Signature extraction -/

/-- Errors of a `Mock` invocation.  `msg` embeds an error value
returned to the caller; `fault` embeds a Go runtime panic (which in
the source aborts the whole process before anything is written). -/
inductive MockErr where
  | msg (text : String)
  | fault (text : String)
deriving DecidableEq

/-- Embedding of the Go string-slicing expression `s[0:2]`, which
panics when the string is shorter than two bytes. -/
def goSlice2 (s : String) : Option String :=
  if 2 ≤ s.data.length then some ⟨s.data.take 2⟩ else none

/-- Embedding of `fmt.Sprintf` restricted to format strings containing
a single `%d` verb, the only shape `extractArgs` uses (`"in%d"` and
`"out%d"`). -/
def sprintfNat (format : String) (n : Nat) : String :=
  ⟨format.data.takeWhile (fun c => ¬ c = '%') ++
    (toString n).data ++
    (format.data.dropWhile (fun c => ¬ c = '%')).drop 2⟩

/-- The `param` struct of `pkg/moq/moq.go`.  The source field `Type`
is spelled `Typ` here because `Type` is a Lean keyword. -/
structure param where
  Name : String
  Typ : String
  Variadic : Bool
deriving DecidableEq

/-- Loop body of `Mocker.extractArgs`: `ii` is the loop index,
`listLen` the tuple length.  An unnamed variable gets
`fmt.Sprintf(nameFormat, ii+1)`; the variadic flag is the Go
expression `sig.Variadic() && ii == listLen-1 && typename[0:2] == "[]"`
with its left-to-right short-circuit evaluation, so the panicking
slice `typename[0:2]` is reached only when the first two conjuncts
hold. -/
def extractArgsAux (variadic : Bool) (listLen : Nat) (nameFormat : String) :
    MockerState → Nat → List GoVar → MockerState × Except MockErr (List param)
  | m, _, [] => (m, .ok [])
  | m, ii, v :: rest =>
    let name := if v.name = "" then sprintfNat nameFormat (ii + 1) else v.name
    let ts := typeString m v.type
    let vres : Except MockErr Bool :=
      if variadic ∧ ii = listLen - 1 then
        match goSlice2 ts.2 with
        | none => .error (.fault "runtime error: slice bounds out of range")
        | some s2 => .ok (decide (s2 = "[]"))
      else .ok false
    match vres with
    | .error e => (ts.1, .error e)
    | .ok vflag =>
      match extractArgsAux variadic listLen nameFormat ts.1 (ii + 1) rest with
      | (m', .error e) => (m', .error e)
      | (m', .ok ps) => (m', .ok (⟨name, ts.2, vflag⟩ :: ps))

/-- Embedding of `Mocker.extractArgs` from `pkg/moq/moq.go`. -/
def extractArgs (m : MockerState) (sig : GoSignature) (list : List GoVar)
    (nameFormat : String) : MockerState × Except MockErr (List param) :=
  extractArgsAux sig.variadic list.length nameFormat m 0 list

/-! ## The Mock pipeline -/

/-- The `method` struct of `pkg/moq/moq.go`. -/
structure method where
  Name : String
  Params : List param
  Returns : List param
deriving DecidableEq

/-- The `obj` struct of `pkg/moq/moq.go`. -/
structure obj where
  InterfaceName : String
  Methods : List method
deriving DecidableEq

/-- The `doc` struct of `pkg/moq/moq.go`. -/
structure doc where
  PackageName : String
  Objects : List obj
  Imports : List String
deriving DecidableEq

/-- A symbol of the loaded package scope: either an interface with its
fully flattened method set (`Complete()`), or some other type together
with the rendering of `iface.Type().String()` used in the error
message. -/
inductive Sym where
  | iface (methods : List GoMethod)
  | nonIface (typeRepr : String)
deriving DecidableEq

/-- The loaded package scope (`tpkg.Scope()`), as a name-to-symbol
association list. -/
structure Scope where
  syms : List (String × Sym)
deriving DecidableEq

/-- Embedding of `tpkg.Scope().Lookup(n)`. -/
def scopeLookup (scope : Scope) (n : String) : Option Sym :=
  (scope.syms.find? (fun kv => kv.1 = n)).map (fun kv => kv.2)

/-- Per-interface method loop of `Mocker.Mock`: each method's inputs
are extracted with format `"in%d"` and its outputs with `"out%d"`,
threading the mocker state (its `imports` map) through. -/
def processMethods : MockerState → List GoMethod →
    MockerState × Except MockErr (List method)
  | m, [] => (m, .ok [])
  | m, meth :: rest =>
    match extractArgs m meth.sig meth.sig.params "in%d" with
    | (m₁, .error e) => (m₁, .error e)
    | (m₁, .ok ps) =>
      match extractArgs m₁ meth.sig meth.sig.results "out%d" with
      | (m₂, .error e) => (m₂, .error e)
      | (m₂, .ok rs) =>
        match processMethods m₂ rest with
        | (m₃, .error e) => (m₃, .error e)
        | (m₃, .ok ms) => (m₃, .ok (⟨meth.name, ps, rs⟩ :: ms))

/-- Per-name loop of `Mocker.Mock`: look each requested name up in the
scope, failing when it is absent or not an interface, and build one
`obj` per interface.  The second component of the result is the
`mocksMethods` flag, set as soon as any interface has a method. -/
def processNames (scope : Scope) : MockerState → List String →
    MockerState × Except MockErr (List obj × Bool)
  | m, [] => (m, .ok ([], false))
  | m, n :: rest =>
    match scopeLookup scope n with
    | none => (m, .error (.msg ("cannot find interface " ++ n)))
    | some (.nonIface typeRepr) =>
      (m, .error (.msg (n ++ " (" ++ typeRepr ++ ") not an interface")))
    | some (.iface methods) =>
      match processMethods m methods with
      | (m₁, .error e) => (m₁, .error e)
      | (m₁, .ok ms) =>
        match processNames scope m₁ rest with
        | (m₂, .error e) => (m₂, .error e)
        | (m₂, .ok (objs, mm)) =>
          (m₂, .ok (⟨n, ms⟩ :: objs, mm || !methods.isEmpty))

/-- Document construction of `Mocker.Mock` (lines 153-193): the `doc`
starts from the template's baseline import list, gains `"sync"` when
`mocksMethods` is set, and finally receives every path of the mocker's
`imports` map, vendor-stripped, in map-iteration order.  Go map
iteration order is unspecified, so it is a parameter `mapIter`; the
theorems assume only that it permutes its input. -/
def mockDoc (mapIter : List String → List String) (moqImports : List String)
    (m : MockerState) (scope : Scope) (names : List String) :
    MockerState × Except MockErr doc :=
  match processNames scope m names with
  | (m', .error e) => (m', .error e)
  | (m', .ok (objs, mm)) =>
    ( m',
      .ok
        { PackageName := m.pkgName
          Objects := objs
          Imports :=
            moqImports ++ (if mm then ["sync"] else []) ++
              (mapIter m'.imports).map stripVendorPath } )

/-! ## Stale-mock cleanup and the full invocation -/

/-- A file of the destination directory, with whether the operating
system would let `os.Remove` succeed on it. -/
structure FsFile where
  name : String
  removable : Bool
deriving DecidableEq

/-- Embedding of `removeOldMocks` from `pkg/moq/moq.go`: resolve the
directory (`filepath.Abs`, an external call embedded as an `Except`
parameter), glob `*_mock.go`, and call `os.Remove` on every match
*discarding its result*, so a failed removal leaves the file in place
without failing the function.  The fixed valid glob pattern cannot
make `filepath.Glob` fail, so the absolute-path resolution is the only
error source. -/
def removeOldMocks (absSrc : Except String String) (fs : List FsFile) :
    Except String (List FsFile) :=
  match absSrc with
  | .error e => .error e
  | .ok _ => .ok (fs.filter (fun f => !(goHasSuffix f.name "_mock.go" && f.removable)))

/-- Decidable equality of `Except` values, needed because the
environments and results below carry them. -/
instance exceptDecEq {ε α : Type} [DecidableEq ε] [DecidableEq α] :
    DecidableEq (Except ε α) := fun x y =>
  match x, y with
  | .ok a, .ok b =>
    if h : a = b then .isTrue (by rw [h]) else .isFalse (by simp [h])
  | .error a, .error b =>
    if h : a = b then .isTrue (by rw [h]) else .isFalse (by simp [h])
  | .ok _, .error _ => .isFalse (fun h => Except.noConfusion h)
  | .error _, .ok _ => .isFalse (fun h => Except.noConfusion h)

/-- The external world of one `Mock` invocation: the outcome of
`filepath.Abs(m.src)`, the destination directory contents, and the
outcome of the loader call `m.pkgInfoFromPath(m.src)` (its package
scope on success). -/
structure MockEnv where
  absSrc : Except String String
  fs : List FsFile
  load : Except String Scope
deriving DecidableEq

/-- Outcome of one `Mock` invocation: the returned error value, the
list of payloads passed to `w.Write` (the writer), the directory
contents after cleanup, and the mocker state after the call. -/
structure MockResult where
  res : Except MockErr Unit
  written : List String
  fs : List FsFile
  state : MockerState
deriving DecidableEq

/-- Embedding of `Mocker.Mock` from `pkg/moq/moq.go`.  The text
template (`m.tmpl.Execute`) and the formatter (`imports.Process`) are
not part of the sources under `src/`, so they are parameters `render`
and `format`; the claims quantify over them or instantiate them with
the spec-modelled renderer below.  The single `w.Write` happens after
every requested name has been processed and both externals succeeded,
which is what the all-or-nothing claims are about. -/
def mock (render : doc → Except String String)
    (format : String → Except String String)
    (mapIter : List String → List String) (moqImports : List String)
    (m : MockerState) (env : MockEnv) (names : List String) : MockResult :=
  if names.isEmpty then
    ⟨.error (.msg "must specify one interface"), [], env.fs, m⟩
  else
    match removeOldMocks env.absSrc env.fs with
    | .error _ => ⟨.error (.msg "failed to clean up old mocks"), [], env.fs, m⟩
    | .ok fs' =>
      match env.load with
      | .error e => ⟨.error (.msg e), [], fs', m⟩
      | .ok scope =>
        match mockDoc mapIter moqImports m scope names with
        | (m', .error e) => ⟨.error e, [], fs', m'⟩
        | (m', .ok d) =>
          match render d with
          | .error e => ⟨.error (.msg e), [], fs', m'⟩
          | .ok text =>
            match format text with
            | .error e => ⟨.error (.msg ("goimports: " ++ e)), [], fs', m'⟩
            | .ok formatted => ⟨.ok (), [formatted], fs', m'⟩

/-! ## Mocker construction -/

/-- Embedding of `New` from `pkg/moq/moq.go`.  `pkgsIter` is the
map-iteration order of the package map returned by `parser.ParseDir`
(its keys in some unspecified order); `packageName` is the optional
override (`""` for absent); `pkgPathSrc` is the outcome of the
external path computation `pkgPath(src)`.  When no override is given
the first iterated package name not containing `"_test"` is selected,
and the mocker's package path becomes
`filepath.Join(filepath.Dir(pkgPath), packageName)`.  The imports map
starts empty. -/
def new (pkgsIter : List String) (packageName : String)
    (pkgPathSrc : Except String String) : Except String MockerState :=
  let chosen :=
    if packageName.length = 0 then
      ((pkgsIter.filter (fun n => !(goContains n "_test"))).headD "")
    else packageName
  if chosen.length = 0 then .error "failed to determine package name"
  else
    match pkgPathSrc with
    | .error e => .error e
    | .ok pp =>
      .ok ⟨chosen, filepathJoin ⟨filepathDir pp.data⟩ chosen, []⟩

/-! ## Spec-modelled renderer and formatter -/

/-- Modelled from the spec: the fixed baseline import list of the
template (`moqImports` of the missing template file).  The spec's
empty-interface scenario requires the baseline not to contain the
mutual-exclusion import, and names no other member, so it is modelled
as empty. -/
def moqImports : List String := []

/-- Embedding of `param.TypeString` from `pkg/moq/moq.go`: a variadic
parameter renders as `"..." + p.Type[2:]`. -/
def param.TypeString (p : param) : String :=
  if p.Variadic then "..." ++ ⟨p.Typ.data.drop 2⟩ else p.Typ

/-- Embedding of `param.String` from `pkg/moq/moq.go`. -/
def param.render (p : param) : String :=
  p.Name ++ " " ++ p.TypeString

/-- Embedding of `param.CallName` from `pkg/moq/moq.go`. -/
def param.CallName (p : param) : String :=
  if p.Variadic then p.Name ++ "..." else p.Name

/-- Embedding of `method.Arglist` from `pkg/moq/moq.go`. -/
def method.Arglist (m : method) : String :=
  String.intercalate ", " (m.Params.map param.render)

/-- Embedding of `method.ArgCallList` from `pkg/moq/moq.go`. -/
def method.ArgCallList (m : method) : String :=
  String.intercalate ", " (m.Params.map param.CallName)

/-- Embedding of `method.ReturnArglist` from `pkg/moq/moq.go`. -/
def method.ReturnArglist (m : method) : String :=
  let ps := m.Returns.map param.TypeString
  if 1 < m.Returns.length then "(" ++ String.intercalate ", " ps ++ ")"
  else String.intercalate ", " ps

/-- Modelled from the spec: the formatter re-sorts the import block
(and canonical formatting collapses duplicate import lines), so the
rendered import list is sorted and deduplicated. -/
def sortedImports (l : List String) : List String :=
  List.insertionSort (fun a b => a ≤ b) l.dedup

/-- Modelled from the spec: one struct field per method of the
stand-in type. -/
def renderField (m : method) : String :=
  "\t" ++ m.Name ++ "Func func(" ++ m.Arglist ++ ") " ++ m.ReturnArglist ++ "\n"

/-- Modelled from the spec: one forwarding method per interface
method. -/
def renderMethod (interfaceName : String) (m : method) : String :=
  "func (mock *" ++ interfaceName ++ "Mock) " ++ m.Name ++ "(" ++ m.Arglist ++ ") " ++
    m.ReturnArglist ++ " \x7b\n\treturn mock." ++ m.Name ++ "Func(" ++ m.ArgCallList ++
    ")\n\x7d\n\n"

/-- Modelled from the spec: the stand-in struct, its compile-time
contract assertion and its forwarding methods for one interface. -/
def renderObj (o : obj) : String :=
  "var _ " ++ o.InterfaceName ++ " = &" ++ o.InterfaceName ++ "Mock\x7b\x7d\n\n" ++
    "type " ++ o.InterfaceName ++ "Mock struct \x7b\n" ++
    String.join (o.Methods.map renderField) ++ "\x7d\n\n" ++
    String.join (o.Methods.map (renderMethod o.InterfaceName))

/-- Modelled from the spec: the combination of the missing text
template and the `goimports` formatting pass, as one pure function
from the document to the formatted source text.  The import block is
emitted sorted and deduplicated, which is the formatter behaviour the
idempotence claim relies on. -/
def moqRender (d : doc) : String :=
  "// Code generated by moq; DO NOT EDIT.\n\npackage " ++ d.PackageName ++
    "\n\nimport (\n" ++
    String.join ((sortedImports d.Imports).map
      (fun i => "\t\x22" ++ i ++ "\x22\n")) ++
    ")\n\n" ++
    String.join (d.Objects.map renderObj)

/-- The full generation pipeline of one CLI run: `New` followed by
`Mock`, with the spec-modelled renderer standing in for the template
execution plus formatting (the sorting of the import block is folded
into `moqRender`, so the formatting stage itself is the identity). -/
def generate (pkgsIter : List String) (packageName : String)
    (pkgPathSrc : Except String String) (env : MockEnv)
    (mapIter : List String → List String) (names : List String) :
    Except String MockResult :=
  match new pkgsIter packageName pkgPathSrc with
  | .error e => .error e
  | .ok m =>
    .ok (mock (fun d => .ok (moqRender d)) (fun s => .ok s) mapIter moqImports m env names)

/-! ## Concrete scenario fixtures -/

/-- A mocker state for a package `p` resolved at path `x/y`, as `New`
builds it (empty imports map). -/
def stP : MockerState := ⟨"p", "x/y", []⟩

/-- A mocker state for a package `b` resolved at path `a/b`, used for
self-package scenarios. -/
def stSelf : MockerState := ⟨"b", "a/b", []⟩

/-- The signature of `Do(xs ...int) []string`: a variadic-declared
method whose result type is a slice. -/
def variadicSliceResultSig : GoSignature :=
  ⟨[⟨"xs", .slice (.basic "int")⟩], [⟨"", .slice (.basic "string")⟩], true⟩

/-- The signature of `Do(xs ...int) T` where `T` is a named type of the
mocker's own package, so its rendered type string has one character. -/
def oneCharResultSig : GoSignature :=
  ⟨[⟨"xs", .slice (.basic "int")⟩], [⟨"", .named "b" "a/b" "T"⟩], true⟩

/-- A signature with an unnamed first input, a named second input and
an unnamed output, exercising name synthesis. -/
def mixedSig : GoSignature :=
  ⟨[⟨"", .basic "int"⟩, ⟨"y", .basic "string"⟩], [⟨"", .basic "bool"⟩], false⟩

/-- A scope containing interface `A` whose method parameter type lives
in the foreign package `a/apkg`. -/
def scopeForeign : Scope :=
  ⟨[("A", .iface [⟨"Do", ⟨[⟨"x", .named "apkg" "a/apkg" "T"⟩], [], false⟩⟩])]⟩

/-- A scope containing the empty interface `B`. -/
def scopeEmptyIface : Scope := ⟨[("B", .iface [])]⟩

/-- A scope containing interface `C` with one niladic method. -/
def scopeMethodIface : Scope := ⟨[("C", .iface [⟨"Do", ⟨[], [], false⟩⟩])]⟩

/-- The import list of a `mockDoc` outcome (empty on failure). -/
def docImportsOf (r : MockerState × Except MockErr doc) : List String :=
  match r.2 with
  | .ok d => d.Imports
  | .error _ => []

/-- An environment whose destination directory holds a stale generated
file that the operating system refuses to remove. -/
def envStale : MockEnv := ⟨.ok "/abs", [⟨"old_mock.go", false⟩], .ok scopeEmptyIface⟩

/-- An environment where `filepath.Abs` fails. -/
def envAbsFail : MockEnv := ⟨.error "denied", [⟨"old_mock.go", false⟩], .ok scopeEmptyIface⟩

/-- An environment with an empty destination directory. -/
def envPlain : MockEnv := ⟨.ok "/abs", [], .ok scopeEmptyIface⟩

/-! ## Helper lemmas about the string and path embeddings -/

/-- The input format string of `extractArgs` renders as `in<k>`. -/
theorem sprintfNat_in (n : Nat) : sprintfNat "in%d" n = "in" ++ toString n := by
  show String.mk _ = _
  have h : "in" ++ toString n = String.mk ("in".data ++ (toString n).data) := rfl
  rw [h]
  simp

/-- The output format string of `extractArgs` renders as `out<k>`. -/
theorem sprintfNat_out (n : Nat) : sprintfNat "out%d" n = "out" ++ toString n := by
  show String.mk _ = _
  have h : "out" ++ toString n = String.mk ("out".data ++ (toString n).data) := rfl
  rw [h]
  simp

/-- On success, `extractArgsAux` names every descriptor after the
source variable, synthesizing `fmt.Sprintf(nameFormat, position+1)`
for unnamed ones. -/
theorem extractArgsAux_names (variadic : Bool) (listLen : Nat) (nameFormat : String) :
    ∀ (l : List GoVar) (m : MockerState) (ii : Nat) (m' : MockerState) (ps : List param),
      extractArgsAux variadic listLen nameFormat m ii l = (m', .ok ps) →
      ps.map param.Name =
        (l.enumFrom ii).map
          (fun iv => if iv.2.name = "" then sprintfNat nameFormat (iv.1 + 1) else iv.2.name)
  | [], m, ii, m', ps, h => by
    simp [extractArgsAux] at h
    simp [h.2.symm]
  | v :: rest, m, ii, m', ps, h => by
    simp only [extractArgsAux] at h
    split at h
    · exact absurd h (by simp)
    next vflag heq =>
      rcases hrec : extractArgsAux variadic listLen nameFormat
          (typeString m v.type).1 (ii + 1) rest with ⟨m₂, res⟩
      rw [hrec] at h
      cases res with
      | error e => exact absurd h (by simp)
      | ok ps' =>
        simp only at h
        have hps : ps = ⟨if v.name = "" then sprintfNat nameFormat (ii + 1) else v.name,
            (typeString m v.type).2, vflag⟩ :: ps' := by
          have h2 := congrArg Prod.snd h
          simpa using h2.symm
        subst hps
        have ih := extractArgsAux_names variadic listLen nameFormat rest
          (typeString m v.type).1 (ii + 1) m₂ ps' hrec
        simp [List.enumFrom_cons, ih]

/-- Inserting a key into the embedded imports map keeps old entries. -/
theorem insertKey_subset (p : String) (l : List String) : l ⊆ insertKey p l := by
  unfold insertKey
  split
  · exact fun x hx => hx
  · exact fun x hx => List.mem_append_left _ hx

/-- The qualifier callback only ever grows the imports map. -/
theorem packageQualifier_imports_mono (m : MockerState) (pkg : GoPackage) :
    m.imports ⊆ (packageQualifier m pkg).1.imports := by
  unfold packageQualifier
  split
  · exact fun x hx => hx
  · exact insertKey_subset _ _

/-- Rendering a type string only ever grows the imports map. -/
theorem typeString_imports_mono (t : GoType) :
    ∀ m : MockerState, m.imports ⊆ (typeString m t).1.imports := by
  induction t with
  | basic typeName => intro m; exact fun x hx => hx
  | named pkgName pkgPath typeName =>
    intro m
    exact packageQualifier_imports_mono m ⟨pkgName, pkgPath⟩
  | slice t ih => intro m; exact ih m
  | ptr t ih => intro m; exact ih m

/-- The extraction loop only ever grows the imports map. -/
theorem extractArgsAux_imports_mono (variadic : Bool) (listLen : Nat) (nameFormat : String) :
    ∀ (l : List GoVar) (m : MockerState) (ii : Nat),
      m.imports ⊆ (extractArgsAux variadic listLen nameFormat m ii l).1.imports
  | [], m, ii => by simp [extractArgsAux]
  | v :: rest, m, ii => by
    simp only [extractArgsAux]
    split
    · exact typeString_imports_mono v.type m
    next vflag heq =>
      rcases hrec : extractArgsAux variadic listLen nameFormat
          (typeString m v.type).1 (ii + 1) rest with ⟨m₂, res⟩
      have step : m.imports ⊆ m₂.imports := by
        have h1 := typeString_imports_mono v.type m
        have h2 := extractArgsAux_imports_mono variadic listLen nameFormat rest
          (typeString m v.type).1 (ii + 1)
        rw [hrec] at h2
        exact fun x hx => h2 (h1 hx)
      cases res with
      | error e => simpa using step
      | ok ps => simpa using step

/-- `extractArgs` only ever grows the imports map. -/
theorem extractArgs_imports_mono (m : MockerState) (sig : GoSignature) (l : List GoVar)
    (nameFormat : String) : m.imports ⊆ (extractArgs m sig l nameFormat).1.imports :=
  extractArgsAux_imports_mono sig.variadic l.length nameFormat l m 0

/-- The per-method loop only ever grows the imports map. -/
theorem processMethods_imports_mono :
    ∀ (ms : List GoMethod) (m : MockerState),
      m.imports ⊆ (processMethods m ms).1.imports
  | [], m => by simp [processMethods]
  | meth :: rest, m => by
    simp only [processMethods]
    rcases h1 : extractArgs m meth.sig meth.sig.params "in%d" with ⟨m₁, r₁⟩
    have s1 : m.imports ⊆ m₁.imports := by
      have := extractArgs_imports_mono m meth.sig meth.sig.params "in%d"
      rwa [h1] at this
    cases r₁ with
    | error e => simpa using s1
    | ok ps =>
      dsimp only
      rcases h2 : extractArgs m₁ meth.sig meth.sig.results "out%d" with ⟨m₂, r₂⟩
      have s2 : m₁.imports ⊆ m₂.imports := by
        have := extractArgs_imports_mono m₁ meth.sig meth.sig.results "out%d"
        rwa [h2] at this
      cases r₂ with
      | error e => simpa using fun x hx => s2 (s1 hx)
      | ok rs =>
        dsimp only
        rcases h3 : processMethods m₂ rest with ⟨m₃, r₃⟩
        have s3 : m₂.imports ⊆ m₃.imports := by
          have := processMethods_imports_mono rest m₂
          rwa [h3] at this
        cases r₃ with
        | error e => simpa using fun x hx => s3 (s2 (s1 hx))
        | ok out => simpa using fun x hx => s3 (s2 (s1 hx))

/-- The per-name loop only ever grows the imports map. -/
theorem processNames_imports_mono (scope : Scope) :
    ∀ (names : List String) (m : MockerState),
      m.imports ⊆ (processNames scope m names).1.imports
  | [], m => by simp [processNames]
  | n :: rest, m => by
    simp only [processNames]
    split
    · exact fun x hx => hx
    · exact fun x hx => hx
    · rename_i methods hlook
      split
      · rename_i m₁ e heq
        have s1 := processMethods_imports_mono methods m
        rw [heq] at s1
        exact s1
      · rename_i m₁ ms heq
        have s1 := processMethods_imports_mono methods m
        rw [heq] at s1
        split
        · rename_i m₂ e heq2
          have s2 := processNames_imports_mono scope rest m₁
          rw [heq2] at s2
          exact fun x hx => s2 (s1 hx)
        · rename_i m₂ objs mm heq2
          have s2 := processNames_imports_mono scope rest m₁
          rw [heq2] at s2
          exact fun x hx => s2 (s1 hx)

/-- On success the per-method loop yields one descriptor per method. -/
theorem processMethods_length :
    ∀ (ms : List GoMethod) (m m' : MockerState) (out : List method),
      processMethods m ms = (m', .ok out) → out.length = ms.length
  | [], m, m', out, h => by
    simp [processMethods] at h
    simp [h.2.symm]
  | meth :: rest, m, m', out, h => by
    simp only [processMethods] at h
    split at h
    · exact absurd h (by simp)
    · rename_i m₁ ps heq1
      split at h
      · exact absurd h (by simp)
      · rename_i m₂ rs heq2
        split at h
        · exact absurd h (by simp)
        · rename_i m₃ ms heq3
          have hout : out = ⟨meth.name, ps, rs⟩ :: ms := by
            have h2 := congrArg Prod.snd h
            simpa using h2.symm
          subst hout
          simp [processMethods_length rest m₂ m₃ ms heq3]

/-- The `mocksMethods` flag is set exactly when some processed
interface produced an object with at least one method. -/
theorem processNames_flag (scope : Scope) :
    ∀ (names : List String) (m m' : MockerState) (objs : List obj) (mm : Bool),
      processNames scope m names = (m', .ok (objs, mm)) →
      (mm = true ↔ ∃ o ∈ objs, o.Methods ≠ [])
  | [], m, m', objs, mm, h => by
    simp [processNames] at h
    obtain ⟨h1, h2, h3⟩ := h
    subst h2
    subst h3
    simp
  | n :: rest, m, m', objs, mm, h => by
    simp only [processNames] at h
    split at h
    · exact absurd h (by simp)
    · exact absurd h (by simp)
    · rename_i methods hlook
      split at h
      · exact absurd h (by simp)
      · rename_i m₁ ms heq1
        split at h
        · exact absurd h (by simp)
        · rename_i m₂ objs' mm' heq2
          have hobjs : objs = ⟨n, ms⟩ :: objs' ∧ mm = (mm' || !methods.isEmpty) := by
            have h2 := congrArg Prod.snd h
            simp at h2
            exact ⟨h2.1.symm, h2.2.symm⟩
          obtain ⟨ho, hm⟩ := hobjs
          subst ho hm
          have ih := processNames_flag scope rest m₁ m₂ objs' mm' heq2
          have hlen := processMethods_length methods m m₁ ms heq1
          constructor
          · intro hmm
            rcases Bool.or_eq_true_iff.mp hmm with h' | h'
            · obtain ⟨o, ho, hne⟩ := ih.mp h'
              exact ⟨o, List.mem_cons_of_mem _ ho, hne⟩
            · refine ⟨⟨n, ms⟩, List.mem_cons_self _ _, ?_⟩
              intro hms
              simp only [] at hms
              rw [hms] at hlen
              have : methods = [] := List.eq_nil_of_length_eq_zero hlen.symm
              rw [this] at h'
              simp at h'
          · rintro ⟨o, ho, hne⟩
            rcases List.mem_cons.mp ho with rfl | ho'
            · have : ms ≠ [] := hne
              have : methods ≠ [] := by
                intro hh
                rw [hh] at hlen
                exact this (List.eq_nil_of_length_eq_zero hlen)
              simp [List.isEmpty_iff, this]
            · simp [ih.mpr ⟨o, ho', hne⟩]

/-- When no processed interface has a method, the per-name loop does
not touch the mocker state. -/
theorem processNames_state_of_not_flag (scope : Scope) :
    ∀ (names : List String) (m m' : MockerState) (objs : List obj),
      processNames scope m names = (m', .ok (objs, false)) → m' = m
  | [], m, m', objs, h => by
    simp [processNames] at h
    exact h.1.symm
  | n :: rest, m, m', objs, h => by
    simp only [processNames] at h
    split at h
    · exact absurd h (by simp)
    · exact absurd h (by simp)
    · rename_i methods hlook
      split at h
      · exact absurd h (by simp)
      · rename_i m₁ ms heq1
        split at h
        · exact absurd h (by simp)
        · rename_i m₂ objs' mm' heq2
          have h2 := congrArg Prod.snd h
          simp at h2
          obtain ⟨hobjs, hflag⟩ := h2
          have hmm' : mm' = false := hflag.1
          have hme : methods = [] := hflag.2
          subst hme
          simp [processMethods] at heq1
          obtain ⟨hm₁, hms⟩ := heq1
          subst hm₁
          subst hmm'
          have ih := processNames_state_of_not_flag scope rest m m₂ objs' heq2
          have hm' := congrArg Prod.fst h
          simp at hm'
          rw [← hm', ih]

/-- `splitSlash` always yields at least one element. -/
theorem splitSlash_ne_nil : ∀ s : List Char, splitSlash s ≠ []
  | [] => by simp [splitSlash]
  | c :: cs => by
    simp only [splitSlash]
    rcases h : splitSlash cs with _ | ⟨h1, t1⟩
    · dsimp only
      simp
    · dsimp only
      split <;> simp

/-- Joining the slash-split of a string gives the string back. -/
theorem joinSep_splitSlash : ∀ s : List Char, joinSep '/' (splitSlash s) = s
  | [] => by simp [splitSlash, joinSep]
  | c :: cs => by
    simp only [splitSlash]
    rcases h : splitSlash cs with _ | ⟨h1, t1⟩
    · exact absurd h (splitSlash_ne_nil cs)
    · have ih := joinSep_splitSlash cs
      rw [h] at ih
      dsimp only
      split
      · rename_i hc
        subst hc
        simp [joinSep, ih]
      · rename_i hc
        have hstep : joinSep '/' ((c :: h1) :: t1) = c :: joinSep '/' (h1 :: t1) := by
          cases t1 <;> simp [joinSep]
        rw [hstep, ih]

/-- The `path.Clean` stack machine pushes every normal element. -/
theorem foldl_cleanStep_normal (rooted : Bool) :
    ∀ (segs : List (List Char)) (stack : List (List Char)),
      (∀ seg ∈ segs, seg ≠ [] ∧ seg ≠ ['.'] ∧ seg ≠ ['.', '.']) →
      segs.foldl (cleanStep rooted) stack = segs.reverse ++ stack
  | [], stack, h => by simp
  | seg :: rest, stack, h => by
    have hs := h seg (List.mem_cons_self _ _)
    have hrest := fun s hs' => h s (List.mem_cons_of_mem _ hs')
    simp only [List.foldl_cons, cleanStep]
    rw [if_neg (by simp [hs.1, hs.2.1]), if_neg hs.2.2]
    rw [foldl_cleanStep_normal rooted rest (seg :: stack) hrest]
    simp

/-- `path.Clean` fixes already-clean relative paths. -/
theorem pathClean_normal (p : List Char) (hne : p ≠ [])
    (hsegs : ∀ seg ∈ splitSlash p, seg ≠ [] ∧ seg ≠ ['.'] ∧ seg ≠ ['.', '.']) :
    pathClean p = p := by
  have hroot : ¬ (p.head? = some '/') := by
    intro hh
    rcases p with _ | ⟨c, cs⟩
    · simp at hh
    · simp at hh
      subst hh
      have : ([] : List Char) ∈ splitSlash ('/' :: cs) := by
        simp only [splitSlash]
        rcases h : splitSlash cs with _ | ⟨h1, t1⟩
        · exact absurd h (splitSlash_ne_nil cs)
        · simp
      exact (hsegs [] this).1 rfl
  unfold pathClean
  rw [if_neg hne]
  simp only []
  rw [foldl_cleanStep_normal _ _ _ hsegs]
  simp only [List.append_nil, List.reverse_reverse]
  rw [joinSep_splitSlash]
  have hb : (decide (p.head? = some '/')) = false := by
    simpa using hroot
  simp only [hb]
  simp [hne]

/-- Away from any marker occurrence, the vendor split keeps scanning. -/
theorem splitVendorF_noOcc :
    ∀ (s : List Char) (fuel : Nat) (acc : List Char),
      s.length ≤ fuel →
      (∀ i, i < s.length → ¬ vendorMarker <+: s.drop i) →
      splitVendorF fuel acc s = [acc.reverse ++ s]
  | [], fuel, acc, hf, hno => by
    cases fuel <;> simp [splitVendorF]
  | c :: cs, fuel, acc, hf, hno => by
    rcases fuel with _ | f
    · simp at hf
    · have h0 : ¬ vendorMarker <+: (c :: cs) := by
        have := hno 0 (by simp)
        simpa using this
      simp only [splitVendorF]
      rw [if_neg h0]
      rw [splitVendorF_noOcc cs f (c :: acc)
        (by simpa using Nat.lt_succ_iff.mp (Nat.lt_of_lt_of_le (Nat.lt_succ_self _) (by simpa using hf)))
        (fun i hi => by
          have := hno (i + 1) (by simpa using Nat.succ_lt_succ hi)
          simpa using this)]
      simp

/-- When the first marker occurrence sits exactly between `a` and `b`
and `b` holds no further occurrence, the vendor split cuts there. -/
theorem splitVendorF_firstOcc :
    ∀ (a b : List Char) (fuel : Nat) (acc : List Char),
      (a ++ vendorMarker ++ b).length ≤ fuel →
      (∀ i, i < a.length → ¬ vendorMarker <+: (a ++ vendorMarker ++ b).drop i) →
      (∀ i, i < b.length → ¬ vendorMarker <+: b.drop i) →
      splitVendorF fuel acc (a ++ vendorMarker ++ b) = [acc.reverse ++ a, b]
  | [], b, fuel, acc, hf, ha, hb => by
    rcases fuel with _ | f
    · simp [vendorMarker] at hf
    · show splitVendorF (f + 1) acc ('/' :: (['v', 'e', 'n', 'd', 'o', 'r', '/'] ++ b)) = _
      simp only [splitVendorF]
      rw [if_pos ⟨b, by simp [vendorMarker]⟩]
      have hdrop : (['v', 'e', 'n', 'd', 'o', 'r', '/'] ++ b).drop 7 = b := rfl
      rw [hdrop]
      rw [splitVendorF_noOcc b f []
        (by simp [vendorMarker] at hf; omega) hb]
      simp
  | x :: a', b, fuel, acc, hf, ha, hb => by
    rcases fuel with _ | f
    · simp at hf
    · have h0 : ¬ vendorMarker <+: (x :: (a' ++ vendorMarker ++ b)) := by
        have := ha 0 (by simp)
        simpa using this
      show splitVendorF (f + 1) acc (x :: (a' ++ vendorMarker ++ b)) = _
      simp only [splitVendorF]
      rw [if_neg h0]
      rw [splitVendorF_firstOcc a' b f (x :: acc)
        (by simp at hf ⊢; omega)
        (fun i hi => by
          have := ha (i + 1) (by simpa using Nat.succ_lt_succ hi)
          simpa using this)
        hb]
      simp

/-- A canonically sorted import block depends only on the multiset of
the import paths. -/
theorem sortedImports_perm {l₁ l₂ : List String} (h : List.Perm l₁ l₂) :
    sortedImports l₁ = sortedImports l₂ := by
  unfold sortedImports
  have hd : List.Perm l₁.dedup l₂.dedup := h.dedup
  have p₁ := List.perm_insertionSort (fun a b : String => a ≤ b) l₁.dedup
  have p₂ := List.perm_insertionSort (fun a b : String => a ≤ b) l₂.dedup
  exact List.eq_of_perm_of_sorted (p₁.trans (hd.trans p₂.symm))
    (List.sorted_insertionSort _ _) (List.sorted_insertionSort _ _)

/-- The rendered document depends on the import list only up to
permutation. -/
theorem moqRender_congr (d₁ d₂ : doc)
    (hp : d₁.PackageName = d₂.PackageName) (ho : d₁.Objects = d₂.Objects)
    (hi : List.Perm d₁.Imports d₂.Imports) :
    moqRender d₁ = moqRender d₂ := by
  unfold moqRender
  rw [hp, ho, sortedImports_perm hi]

/-- Two map-iteration orders produce the same document up to a
permutation of its import list. -/
theorem mockDoc_mapIter_rel (mapIter₁ mapIter₂ : List String → List String)
    (moqI : List String) (m : MockerState) (scope : Scope) (names : List String)
    (hp₁ : ∀ l, List.Perm (mapIter₁ l) l) (hp₂ : ∀ l, List.Perm (mapIter₂ l) l) :
    (mockDoc mapIter₁ moqI m scope names).1 = (mockDoc mapIter₂ moqI m scope names).1 ∧
    ((∃ e, (mockDoc mapIter₁ moqI m scope names).2 = .error e ∧
           (mockDoc mapIter₂ moqI m scope names).2 = .error e) ∨
     (∃ d₁ d₂, (mockDoc mapIter₁ moqI m scope names).2 = .ok d₁ ∧
               (mockDoc mapIter₂ moqI m scope names).2 = .ok d₂ ∧
               d₁.PackageName = d₂.PackageName ∧ d₁.Objects = d₂.Objects ∧
               List.Perm d₁.Imports d₂.Imports)) := by
  unfold mockDoc
  rcases h : processNames scope m names with ⟨m', res⟩
  cases res with
  | error e =>
    dsimp only
    exact ⟨rfl, Or.inl ⟨e, rfl, rfl⟩⟩
  | ok om =>
    rcases om with ⟨objs, mm⟩
    dsimp only
    refine ⟨rfl, Or.inr ⟨_, _, rfl, rfl, rfl, rfl, ?_⟩⟩
    apply List.Perm.append_left
    exact ((hp₁ m'.imports).map stripVendorPath).trans
      ((hp₂ m'.imports).map stripVendorPath).symm

/-- With the spec-modelled renderer, the bytes a `Mock` invocation
writes do not depend on the map-iteration order of the imports map. -/
theorem mock_moqRender_mapIter (mapIter₁ mapIter₂ : List String → List String)
    (moqI : List String) (m : MockerState) (env : MockEnv) (names : List String)
    (hp₁ : ∀ l, List.Perm (mapIter₁ l) l) (hp₂ : ∀ l, List.Perm (mapIter₂ l) l) :
    mock (fun d => .ok (moqRender d)) (fun s => .ok s) mapIter₁ moqI m env names =
      mock (fun d => .ok (moqRender d)) (fun s => .ok s) mapIter₂ moqI m env names := by
  unfold mock
  split
  · rfl
  · split
    · rfl
    · split
      · rfl
      · rename_i fs' scope hload
        have hrel := mockDoc_mapIter_rel mapIter₁ mapIter₂ moqI m scope names hp₁ hp₂
        rcases h1 : mockDoc mapIter₁ moqI m scope names with ⟨ma, ra⟩
        rcases h2 : mockDoc mapIter₂ moqI m scope names with ⟨mb, rb⟩
        rw [h1, h2] at hrel
        obtain ⟨hm, hd⟩ := hrel
        dsimp only at hm
        subst hm
        rcases hd with ⟨e, he1, he2⟩ | ⟨d₁, d₂, hd1, hd2, hpn, hobj, hperm⟩
        · dsimp only at he1 he2
          subst he1
          subst he2
          rfl
        · dsimp only at hd1 hd2
          subst hd1
          subst hd2
          dsimp only
          rw [moqRender_congr d₁ d₂ hpn hobj hperm]

/-! ## Claim theorems -/

/-- Claim C1 (code bug).  The claim states that the variadic flag is
never true for an output descriptor; the code applies the test
`sig.Variadic() && ii == listLen-1 && typename[0:2] == "[]"` to the
result tuple as well, so for the variadic-declared method
`Do(xs ...int) []string` the extracted *output* descriptor carries
`Variadic = true`, contradicting the claim. -/
theorem C1_variadic_output_flag :
    extractArgs stP variadicSliceResultSig variadicSliceResultSig.results "out%d" =
      (stP, .ok [⟨"out1", "[]string", true⟩]) := by
  decide

/-- Claim C2 (confirmed).  On successful extraction, the k-th input
descriptor is named `in<k>` when the source omitted the name (1-indexed)
and keeps the explicit name otherwise; likewise `out<k>` for outputs. -/
theorem C2_param_naming (m m₁ m₂ : MockerState) (sig : GoSignature)
    (ps rs : List param)
    (hin : extractArgs m sig sig.params "in%d" = (m₁, .ok ps))
    (hout : extractArgs m₁ sig sig.results "out%d" = (m₂, .ok rs)) :
    ps.map param.Name = sig.params.enum.map
      (fun iv => if iv.2.name = "" then "in" ++ toString (iv.1 + 1) else iv.2.name) ∧
    rs.map param.Name = sig.results.enum.map
      (fun iv => if iv.2.name = "" then "out" ++ toString (iv.1 + 1) else iv.2.name) := by
  have h1 := extractArgsAux_names sig.variadic sig.params.length "in%d"
    sig.params m 0 m₁ ps hin
  have h2 := extractArgsAux_names sig.variadic sig.results.length "out%d"
    sig.results m₁ 0 m₂ rs hout
  constructor
  · rw [h1]
    have he : sig.params.enumFrom 0 = sig.params.enum := rfl
    rw [he]
    apply List.map_congr_left
    intro iv _
    by_cases hn : iv.2.name = "" <;> simp [hn, sprintfNat_in]
  · rw [h2]
    have he : sig.results.enumFrom 0 = sig.results.enum := rfl
    rw [he]
    apply List.map_congr_left
    intro iv _
    by_cases hn : iv.2.name = "" <;> simp [hn, sprintfNat_out]

/-- Witness for C2 at a signature with an unnamed first input, a named
second input, and an unnamed output. -/
theorem C2_param_naming_witness :
    extractArgs stP mixedSig mixedSig.params "in%d" =
        (stP, .ok [⟨"in1", "int", false⟩, ⟨"y", "string", false⟩]) ∧
    extractArgs stP mixedSig mixedSig.results "out%d" =
        (stP, .ok [⟨"out1", "bool", false⟩]) ∧
    (([⟨"in1", "int", false⟩, ⟨"y", "string", false⟩] : List param).map param.Name =
        mixedSig.params.enum.map
          (fun iv => if iv.2.name = "" then "in" ++ toString (iv.1 + 1) else iv.2.name) ∧
      ([⟨"out1", "bool", false⟩] : List param).map param.Name =
        mixedSig.results.enum.map
          (fun iv => if iv.2.name = "" then "out" ++ toString (iv.1 + 1) else iv.2.name)) :=
  ⟨by decide, by decide,
    C2_param_naming stP stP stP mixedSig
      [⟨"in1", "int", false⟩, ⟨"y", "string", false⟩] [⟨"out1", "bool", false⟩]
      (by decide) (by decide)⟩

/-- Counterexample for claim C3.  For a package whose `Path()` is the
bare `"."`, the qualifier records the mocker's own package path, not
the package's import path `"."` as the claim states. -/
theorem C3_dot_path_counterexample :
    importIdentity ⟨"foo", "."⟩ ≠ stP.pkgPath ∧
    (packageQualifier stP ⟨"foo", "."⟩).2 = "foo" ∧
    (packageQualifier stP ⟨"foo", "."⟩).1.imports = ["x/y"] ∧
    "." ∉ (packageQualifier stP ⟨"foo", "."⟩).1.imports := by
  decide

/-- Claim C3 (amended).  If the computed import identity (directory of
the package path joined with the short name) equals the current
package's identity, the qualifier is empty and the state, hence also
the import set, is untouched; otherwise the short name is returned and the
package's import path, with a bare `"."` first resolved to the current
package path, is recorded. -/
theorem C3_qualifier_policy (m : MockerState) (pkg : GoPackage) :
    (importIdentity pkg = m.pkgPath →
      (packageQualifier m pkg).2 = "" ∧ (packageQualifier m pkg).1 = m) ∧
    (importIdentity pkg ≠ m.pkgPath →
      (packageQualifier m pkg).2 = pkg.name ∧
      (packageQualifier m pkg).1.imports =
        insertKey (if pkg.path = "." then m.pkgPath else pkg.path) m.imports) := by
  unfold packageQualifier
  constructor
  · intro h
    rw [if_pos h]
    exact ⟨rfl, rfl⟩
  · intro h
    rw [if_neg h]
    exact ⟨rfl, rfl⟩

/-- Witness for C3 exercising both branches: a self-package reference
yields no qualifier and no recording, and a foreign reference records
its path and returns its short name. -/
theorem C3_qualifier_policy_witness :
    (importIdentity ⟨"b", "a/b"⟩ = stSelf.pkgPath ∧
      (packageQualifier stSelf ⟨"b", "a/b"⟩).2 = "" ∧
      (packageQualifier stSelf ⟨"b", "a/b"⟩).1 = stSelf) ∧
    (importIdentity ⟨"apkg", "a/apkg"⟩ ≠ stP.pkgPath ∧
      (packageQualifier stP ⟨"apkg", "a/apkg"⟩).2 = "apkg" ∧
      (packageQualifier stP ⟨"apkg", "a/apkg"⟩).1.imports =
        insertKey (if ("a/apkg" : String) = "." then stP.pkgPath else "a/apkg")
          stP.imports) :=
  ⟨⟨by decide, (C3_qualifier_policy stSelf ⟨"b", "a/b"⟩).1 (by decide)⟩,
   ⟨by decide, (C3_qualifier_policy stP ⟨"apkg", "a/apkg"⟩).2 (by decide)⟩⟩

/-- Counterexample for claim C4.  With nested vendor markers the
recorded path is neither the portion after the first marker nor the
portion after the last one, and it can even still contain a vendor
marker segment. -/
theorem C4_nested_vendor_counterexample :
    stripVendorPath "a/vendor/b/vendor/vendor/c" = "b/vendor/c" ∧
    goContains "b/vendor/c" "/vendor/" = true ∧
    stripVendorPath "a/vendor/b/vendor/c" = "b/c" ∧
    ("b/c" : String) ≠ "b/vendor/c" ∧ ("b/c" : String) ≠ "c" := by
  decide

/-- Claim C4 (amended).  For an import path in which the vendor marker
occurs exactly once (first occurrence at the cut, none inside the
remainder) and whose remainder is a clean relative path, the rewrite
yields exactly the portion after the marker — in particular
`example.com/mod/vendor/example.org/pkg` becomes
`example.org/pkg`; with nested markers the output may keep a vendor
segment. -/
theorem C4_strip_single_marker (a b : List Char)
    (ha : ∀ i, i < a.length → ¬ vendorMarker <+: (a ++ vendorMarker ++ b).drop i)
    (hb : ∀ i, i < b.length → ¬ vendorMarker <+: b.drop i)
    (hbne : b ≠ [])
    (hsegs : ∀ seg ∈ splitSlash b, seg ≠ [] ∧ seg ≠ ['.'] ∧ seg ≠ ['.', '.']) :
    stripVendorPath ⟨a ++ vendorMarker ++ b⟩ = ⟨b⟩ := by
  have hsplit : splitVendor (a ++ vendorMarker ++ b) = [a, b] := by
    unfold splitVendor
    rw [splitVendorF_firstOcc a b _ [] (Nat.le_refl _) ha hb]
    simp
  unfold stripVendorPath
  simp only [hsplit]
  rw [if_neg (by simp)]
  have hjoin : pathJoin ([a, b].drop 1) = b := by
    show pathJoin [b] = b
    unfold pathJoin
    have hie : b.isEmpty = false := by simp [List.isEmpty_iff, hbne]
    have hdw : [b].dropWhile (fun e => e.isEmpty) = [b] := by
      simp [List.dropWhile, hie]
    rw [hdw]
    show pathClean (joinSep '/' [b]) = b
    have hj : joinSep '/' [b] = b := rfl
    rw [hj]
    exact pathClean_normal b hbne hsegs
  rw [hjoin]
  have hhead : ∀ (c : Char) (bs : List Char), b = c :: bs → ¬ c = '/' := by
    intro c bs hbb hc
    subst hc
    rw [hbb] at hsegs
    have : ([] : List Char) ∈ splitSlash ('/' :: bs) := by
      simp only [splitSlash]
      rcases h : splitSlash bs with _ | ⟨h1, t1⟩
      · exact absurd h (splitSlash_ne_nil bs)
      · simp
    exact (hsegs [] this).1 rfl
  rcases hbb : b with _ | ⟨c, bs⟩
  · exact absurd hbb hbne
  · have hc := hhead c bs hbb
    simp [List.dropWhile, hc]

/-- Witness for C4 at the spec's own example path. -/
theorem C4_strip_single_marker_witness :
    stripVendorPath "example.com/mod/vendor/example.org/pkg" = "example.org/pkg" := by
  have h := C4_strip_single_marker "example.com/mod".data "example.org/pkg".data
    (by decide) (by decide) (by decide) (by decide)
  have he : (⟨"example.com/mod".data ++ vendorMarker ++ "example.org/pkg".data⟩ : String) =
      "example.com/mod/vendor/example.org/pkg" := by decide
  rw [he] at h
  exact h

/-- Counterexample for claim C5.  A pre-existing generated file the
operating system refuses to remove does not make the invocation fail:
the removal error is discarded, the call succeeds, and the stale file
survives. -/
theorem C5_removal_failure_ignored_counterexample :
    (mock (fun _ => .ok "") (fun s => .ok s) id [] stP envStale ["B"]).res = .ok () ∧
    (⟨"old_mock.go", false⟩ : FsFile) ∈
      (mock (fun _ => .ok "") (fun s => .ok s) id [] stP envStale ["B"]).fs := by
  decide

/-- Claim C5 (amended).  Only a failure of the directory resolution
step surfaces, as the `failed to clean up old mocks` error; a failure
to remove an individual matching file is silently ignored and the file
stays in the destination directory. -/
theorem C5_cleanup_policy (render : doc → Except String String)
    (format : String → Except String String) (mapIter : List String → List String)
    (moqI : List String) (m : MockerState) (env : MockEnv) (names : List String)
    (hn : names ≠ []) :
    (∀ e, env.absSrc = .error e →
      (mock render format mapIter moqI m env names).res =
        .error (.msg "failed to clean up old mocks")) ∧
    (∀ dd, env.absSrc = .ok dd → ∀ f ∈ env.fs, f.removable = false →
      f ∈ (mock render format mapIter moqI m env names).fs) := by
  constructor
  · intro e habs
    unfold mock
    rw [if_neg (by simpa [List.isEmpty_iff] using hn)]
    simp [removeOldMocks, habs]
  · intro dd habs f hf hrem
    unfold mock
    rw [if_neg (by simpa [List.isEmpty_iff] using hn)]
    simp only [removeOldMocks, habs]
    have hkeep : f ∈ env.fs.filter
        (fun f => !(goHasSuffix f.name "_mock.go" && f.removable)) := by
      simp [List.mem_filter, hf, hrem]
    split
    · exact hkeep
    · split
      · exact hkeep
      · split
        · exact hkeep
        · split
          · exact hkeep
          · exact hkeep

/-- Witness for C5: an absolute-path failure surfaces as the cleanup
error, and an unremovable stale file survives a successful call. -/
theorem C5_cleanup_policy_witness :
    (mock (fun _ => .ok "") (fun s => .ok s) id [] stP envAbsFail ["B"]).res =
      .error (.msg "failed to clean up old mocks") ∧
    (⟨"old_mock.go", false⟩ : FsFile) ∈
      (mock (fun _ => .ok "") (fun s => .ok s) id [] stP envStale ["B"]).fs :=
  ⟨(C5_cleanup_policy (fun _ => .ok "") (fun s => .ok s) id [] stP envAbsFail ["B"]
      (by decide)).1 "denied" rfl,
   (C5_cleanup_policy (fun _ => .ok "") (fun s => .ok s) id [] stP envStale ["B"]
      (by decide)).2 "/abs" rfl ⟨"old_mock.go", false⟩ (by decide) rfl⟩

/-- Counterexample for claim C6.  The imports map survives a `Mock`
invocation: after mocking interface `A` (which records `a/apkg`), a
second invocation on the empty interface `B` still emits `a/apkg` in
its document, although a fresh mocker mocking `B` emits no imports. -/
theorem C6_import_leak_counterexample :
    "a/apkg" ∈ docImportsOf
      (mockDoc id [] (mockDoc id [] stP scopeForeign ["A"]).1 scopeEmptyIface ["B"]) ∧
    docImportsOf (mockDoc id [] stP scopeEmptyIface ["B"]) = [] := by
  decide

/-- Claim C6 (amended).  The imports map is flushed into every
invocation's document but never cleared: any path already recorded on
the mocker before an invocation reappears, vendor-stripped, in that
invocation's import list.  A fresh import set is only obtained by
constructing a new `Mocker`. -/
theorem C6_stale_imports_flushed (mapIter : List String → List String)
    (moqI : List String) (scope : Scope) (names : List String)
    (m m' : MockerState) (d : doc)
    (hperm : ∀ l, List.Perm (mapIter l) l)
    (h : mockDoc mapIter moqI m scope names = (m', .ok d)) :
    ∀ p ∈ m.imports, stripVendorPath p ∈ d.Imports := by
  intro p hp
  simp only [mockDoc] at h
  split at h
  · exact absurd h (by simp)
  · rename_i m₂ objs mm heq
    have hd : d = ⟨m.pkgName, objs,
        moqI ++ (if mm then ["sync"] else []) ++
          (mapIter m₂.imports).map stripVendorPath⟩ := by
      have h2 := congrArg Prod.snd h
      simpa using h2.symm
    subst hd
    have hmono := processNames_imports_mono scope names m
    rw [heq] at hmono
    have hp2 : p ∈ m₂.imports := hmono hp
    have hp3 : p ∈ mapIter m₂.imports := ((hperm m₂.imports).mem_iff).mpr hp2
    simp only []
    exact List.mem_append_right _ (List.mem_map_of_mem _ hp3)

/-- Witness for C6: a mocker that already recorded `a/apkg` re-emits it
while generating the empty interface `B`. -/
theorem C6_stale_imports_flushed_witness :
    stripVendorPath "a/apkg" ∈
      (doc.mk "p" [⟨"B", []⟩] ["a/apkg"]).Imports :=
  C6_stale_imports_flushed id [] scopeEmptyIface ["B"]
    ⟨"p", "x/y", ["a/apkg"]⟩ ⟨"p", "x/y", ["a/apkg"]⟩
    (doc.mk "p" [⟨"B", []⟩] ["a/apkg"])
    (fun l => List.Perm.refl l) (by decide) "a/apkg" (by decide)

/-- Claim C7 (confirmed).  Starting from a fresh mocker whose baseline
template import list lacks the mutual-exclusion import, the generated
document's import list contains `sync` exactly when some processed
contract has at least one method. -/
theorem C7_sync_import_iff (mapIter : List String → List String) (moqI : List String)
    (scope : Scope) (names : List String) (m m' : MockerState) (d : doc)
    (hperm : ∀ l, List.Perm (mapIter l) l)
    (hsync : "sync" ∉ moqI)
    (hfresh : m.imports = [])
    (h : mockDoc mapIter moqI m scope names = (m', .ok d)) :
    ("sync" ∈ d.Imports ↔ ∃ o ∈ d.Objects, o.Methods ≠ []) := by
  simp only [mockDoc] at h
  split at h
  · exact absurd h (by simp)
  · rename_i m₂ objs mm heq
    have hd : d = ⟨m.pkgName, objs,
        moqI ++ (if mm then ["sync"] else []) ++
          (mapIter m₂.imports).map stripVendorPath⟩ := by
      have h2 := congrArg Prod.snd h
      simpa using h2.symm
    subst hd
    have hflag := processNames_flag scope names m m₂ objs mm heq
    cases mm with
    | true =>
      simp only []
      constructor
      · intro _
        exact hflag.mp rfl
      · intro _
        simp
    | false =>
      have hstate := processNames_state_of_not_flag scope names m m₂ objs heq
      subst hstate
      rw [hfresh] at *
      have hmapnil : mapIter [] = [] := (hperm []).eq_nil
      simp only [hmapnil]
      constructor
      · intro hmem
        simp at hmem
        exact absurd hmem hsync
      · intro hex
        exact absurd (hflag.mpr hex) (by simp)

/-- Witness for C7: interface `C` with one method yields a document
whose import list is exactly `[sync]`, and the equivalence holds
there. -/
theorem C7_sync_import_iff_witness :
    ("sync" ∉ ([] : List String)) ∧
    (("sync" ∈ (doc.mk "p" [⟨"C", [⟨"Do", [], []⟩]⟩] ["sync"]).Imports) ↔
      ∃ o ∈ (doc.mk "p" [⟨"C", [⟨"Do", [], []⟩]⟩] ["sync"]).Objects, o.Methods ≠ []) :=
  ⟨by decide,
    C7_sync_import_iff id [] scopeMethodIface ["C"] stP stP
      (doc.mk "p" [⟨"C", [⟨"Do", [], []⟩]⟩] ["sync"])
      (fun l => List.Perm.refl l) (by decide) rfl (by decide)⟩

/-- Claim C8 (confirmed).  Whatever the renderer, formatter, iteration
order and inputs, a failing `Mock` invocation writes nothing to the
output writer: processing of every requested name, template execution
and formatting all precede the single write. -/
theorem C8_all_or_nothing (render : doc → Except String String)
    (format : String → Except String String) (mapIter : List String → List String)
    (moqI : List String) (m : MockerState) (env : MockEnv) (names : List String) :
    ∀ e : MockErr, (mock render format mapIter moqI m env names).res = .error e →
      (mock render format mapIter moqI m env names).written = [] := by
  unfold mock
  split
  · intro e h; rfl
  · split
    · intro e h; rfl
    · split
      · intro e h; rfl
      · split
        · intro e h; rfl
        · split
          · intro e h; rfl
          · split
            · intro e h; rfl
            · intro e h; exact absurd h (by simp)

/-- Witness for C8 at the empty request list, whose failure writes
nothing. -/
theorem C8_all_or_nothing_witness :
    (mock (fun _ => .ok "") (fun s => .ok s) id [] stP envPlain []).written = [] :=
  C8_all_or_nothing (fun _ => .ok "") (fun s => .ok s) id [] stP envPlain []
    (.msg "must specify one interface") (by decide)

/-- Counterexample for claim C9.  With no package-name override and a
directory parsing into two packages, the map-iteration order over the
parsed package map decides the selected package name, so two runs on
identical inputs can produce different bytes. -/
theorem C9_map_order_counterexample :
    generate ["a", "bb"] "" (.ok "x/y") envPlain id ["B"] ≠
      generate ["bb", "a"] "" (.ok "x/y") envPlain id ["B"] := by
  decide

/-- Claim C9 (amended).  When a package-name override is supplied, the
pipeline's output is independent of the map-iteration orders over both
the parsed-package map and the imports map (the formatter sorts the
rendered import block), so repeated runs on identical inputs are byte-identical;
without an override, package selection from a multi-package directory
is order-dependent. -/
theorem C9_deterministic_given_override (pkgsIter₁ pkgsIter₂ : List String)
    (packageName : String) (pkgPathSrc : Except String String) (env : MockEnv)
    (mapIter₁ mapIter₂ : List String → List String) (names : List String)
    (hov : packageName.length ≠ 0)
    (hp₁ : ∀ l, List.Perm (mapIter₁ l) l) (hp₂ : ∀ l, List.Perm (mapIter₂ l) l) :
    generate pkgsIter₁ packageName pkgPathSrc env mapIter₁ names =
      generate pkgsIter₂ packageName pkgPathSrc env mapIter₂ names := by
  unfold generate new
  simp only [if_neg hov]
  split
  · rfl
  · rw [mock_moqRender_mapIter mapIter₁ mapIter₂ moqImports _ env names hp₁ hp₂]

/-- Witness for C9 with the override `p`, different package iteration
orders and different import flush orders. -/
theorem C9_deterministic_given_override_witness :
    generate ["a", "bb"] "p" (.ok "x/y") envPlain id ["B"] =
      generate ["bb", "a"] "p" (.ok "x/y") envPlain (fun l => l.reverse) ["B"] :=
  C9_deterministic_given_override ["a", "bb"] ["bb", "a"] "p" (.ok "x/y") envPlain
    id (fun l => l.reverse) ["B"] (by decide) (fun l => List.Perm.refl l)
    (fun l => List.reverse_perm l)

/-- Claim C10 (code bug).  The claim asserts extraction is total and
the two-character test guarded; in the code `typename[0:2]` is reached
for the last output of a variadic-declared method even when the
rendered type string is shorter than two characters, and the slice
expression panics: `Do(xs ...int) T` with a same-package one-character
type `T` aborts extraction. -/
theorem C10_slice_bounds_panic :
    extractArgs stSelf oneCharResultSig oneCharResultSig.results "out%d" =
      (stSelf, .error (.fault "runtime error: slice bounds out of range")) := by
  decide

end Moq
